import Mathlib

/-
Verification of the EMD tree data model of py4DSTEM
(src/py4DSTEM/io/classes/tree.py).

The Python heap is modelled as an explicit state: nodes are identified by
natural-number ids, and every `Node` / `Root` instance is a record stored in
an insertion-ordered association list (mirroring a Python object graph where
mutation happens in place).  `Metadata` instances likewise live in a store of
their own so that instance identity (ids) and content (records) can be told
apart.  Python exceptions are modelled by returning `Except PyErr` together
with the heap as it stands when the exception escapes: mutations performed
before a `raise` are kept, exactly as in Python.

Python error messages are reproduced with apostrophes and backticks elided
and dynamic f-string parts (such as the `type(...)` of an offending value)
dropped; the constructor of `PyErr` records the exception class.
-/

abbrev NodeId := Nat
abbrev MetaId := Nat

/-- Python exception kinds raised by the code in tree.py. -/
inductive PyErr where
  | assertionError (msg : String)
  | indexError
  | keyError (k : String)
  | attributeError (msg : String)
  | typeError (msg : String)
  | nameError (msg : String)
  | exception (msg : String)
deriving DecidableEq, Repr

/-- Modelled from the spec: the `Metadata` class is imported from
`py4DSTEM.io.classes` and is not among the sources; the spec describes a
MetadataBundle as a named key-value dictionary with a `copy()` producing an
independent duplicate.  Content is abstracted as a string-keyed mapping. -/
structure Meta where
  name : String
  data : List (String × String)
deriving DecidableEq, Repr

/-- The mutable fields of a Python `Node` (`tree.py`, `Node.__init__` and
`Root.__init__`).  `isRoot` records the Python class of the instance
(`Root` vs `Node`); `emdInstanceTag` records the instance attribute
`_emd_group_type` that `Root.__init__` assigns (class-level lookup is a
separate function, `classEmdGroupType`). -/
structure NodeData where
  name : String
  tree : List (String × NodeId)
  treepath : Option String
  root : Option NodeId
  metadata : List (String × MetaId)
  isRoot : Bool
  emdInstanceTag : Option String
deriving DecidableEq, Repr

/-- The heap: all live Node and Metadata instances, plus allocation counters
for fresh ids. -/
structure State where
  nodes : List (NodeId × NodeData)
  metas : List (MetaId × Meta)
  nextNode : NodeId
  nextMeta : MetaId
deriving DecidableEq, Repr

/-- Lookup in an insertion-ordered association list (first match). -/
def alistGet {κ α : Type} [DecidableEq κ] : List (κ × α) → κ → Option α
  | [], _ => none
  | (k1, v) :: rest, k => if k1 = k then some v else alistGet rest k

/-- Python dict assignment `d[k] = v`: overwrite the entry in place if the
key is present (keeping its position), else append. -/
def alistSet {κ α : Type} [DecidableEq κ] : List (κ × α) → κ → α → List (κ × α)
  | [], k, v => [(k, v)]
  | (k1, w) :: rest, k, v =>
    if k1 = k then (k, v) :: rest else (k1, w) :: alistSet rest k v

/-- Python dict deletion `del d[k]` (the key is checked separately). -/
def alistDel {κ α : Type} [DecidableEq κ] (l : List (κ × α)) (k : κ) :
    List (κ × α) :=
  l.filter (fun p => p.1 ≠ k)

/-- `Node.__init__`: `name`, an empty child `Tree`, `_treepath = None`,
`_root = None`, `_metadata = {}`. -/
def mkNode (name : String) : NodeData :=
  { name := name, tree := [], treepath := none, root := none,
    metadata := [], isRoot := false, emdInstanceTag := none }

/-- `Root.__init__(name)`: `Node.__init__`, then `_treepath = ""`,
`_root = self`, and the instance attribute `_emd_group_type = "root"`. -/
def mkRoot (selfId : NodeId) (name : String) : NodeData :=
  { name := name, tree := [], treepath := some "", root := some selfId,
    metadata := [], isRoot := true, emdInstanceTag := some "root" }

/-- Read a node record from the heap.  Dangling ids (which the operations
never create) default to a fresh `Node()`. -/
def State.nodeD (s : State) (i : NodeId) : NodeData :=
  (alistGet s.nodes i).getD (mkNode "node")

/-- Read a metadata record from the heap. -/
def State.metaD (s : State) (i : MetaId) : Meta :=
  (alistGet s.metas i).getD { name := "metadata", data := [] }

/-- In-place update of a node record (Python attribute assignment). -/
def State.setNode (s : State) (i : NodeId) (d : NodeData) : State :=
  { s with nodes := alistSet s.nodes i d }

/-- In-place update of a metadata record. -/
def State.setMeta (s : State) (i : MetaId) (d : Meta) : State :=
  { s with metas := alistSet s.metas i d }

/-- Helper for `pySplit`: split a character list at every separator,
accumulating the current segment in reverse. -/
def splitCharsAux (sep : Char) : List Char → List Char → List (List Char)
  | [], acc => [acc.reverse]
  | c :: rest, acc =>
    if c = sep then acc.reverse :: splitCharsAux sep rest []
    else splitCharsAux sep rest (c :: acc)

/-- Python `str.split(sep)` for a single-character separator: the empty
string yields `[""]`, and leading/trailing/adjacent separators yield empty
segments (same as `String.splitOn`, implemented structurally). -/
def pySplit (x : String) (sep : Char) : List String :=
  (splitCharsAux sep x.toList []).map (fun l => String.mk l)

/-- Python `"/".join(l)`. -/
def joinSlash : List String → String
  | [] => ""
  | [a] => a
  | a :: rest => a ++ "/" ++ joinSlash rest

/-- `Tree._getitem_from_list`: raises on an empty segment list, asserts the
first segment is a key of the local dict, and recurses into that child's
`_tree` when segments remain. -/
def getitem_from_list (s : State) (t : List (String × NodeId)) :
    List String → Except PyErr NodeId
  | [] => .error (.exception "invalid slice value to tree")
  | k :: rest =>
    match alistGet t k with
    | none => .error (.assertionError (k ++ " not found in tree - check keys"))
    | some cid =>
      if rest.isEmpty then .ok cid
      else getitem_from_list s ((s.nodeD cid).tree) rest

/-- Python `list.remove(x)`: drop the first occurrence of the empty string,
or report failure (`ValueError`) when absent. -/
def removeFirstEmpty : List String → Option (List String)
  | [] => none
  | a :: rest =>
    if a = "" then some rest
    else (removeFirstEmpty rest).map (fun l => a :: l)

/-- The `try: l.remove(); l.remove() except ValueError: pass` prelude of
`Tree.__getitem__`: at most the first two empty segments are dropped, and
the `ValueError` of a failing `remove` abandons the rest of the `try` body. -/
def removeTwice (l : List String) : List String :=
  match removeFirstEmpty l with
  | none => l
  | some l1 =>
    match removeFirstEmpty l1 with
    | none => l1
    | some l2 => l2

/-- `Tree.__getitem__`: split on `/`, strip up to two empty segments, and
resolve the rest recursively. -/
def tree_getitem (s : State) (t : List (String × NodeId)) (x : String) :
    Except PyErr NodeId :=
  getitem_from_list s t (removeTwice (pySplit x '/'))

/-- `Node.get_from_tree(name)`: an empty `name` makes `name[0]` raise
IndexError; a leading `/` resolves from `self.root._tree` (an
AttributeError if `root` is `None`), otherwise from `self._tree`. -/
def get_from_tree (s : State) (selfId : NodeId) (name : String) :
    Except PyErr NodeId :=
  match name.toList with
  | [] => .error .indexError
  | c :: _ =>
    if c ≠ '/' then tree_getitem s ((s.nodeD selfId).tree) name
    else
      match (s.nodeD selfId).root with
      | none => .error (.attributeError "NoneType object has no attribute tree")
      | some r => tree_getitem s ((s.nodeD r).tree) name

/-- `Node.show_tree(root)`: display only; `root=True` asserts the node is
rooted.  The heap is untouched. -/
def show_tree (s : State) (selfId : NodeId) (root : Bool) : Except PyErr Unit :=
  if root = false then .ok ()
  else if (s.nodeD selfId).root = none then
    .error (.assertionError "Cant display an unrooted node from its root!")
  else .ok ()

/-- `Node.add_to_tree(node)`: assert self is rooted and node is unrooted,
then `node._root = self._root`, `self._tree[node.name] = node`,
`node._treepath = self._treepath + "/" + node.name`.  If `self._treepath`
is `None` the final `+` raises TypeError after the first two mutations. -/
def add_to_tree (s : State) (selfId nodeId : NodeId) :
    (Except PyErr Unit) × State :=
  if (s.nodeD selfId).root = none then
    (.error (.assertionError
      "Cant add objects to an unrooted node. See the Node docstring for more info."), s)
  else if (s.nodeD nodeId).root ≠ none then
    (.error (.assertionError
      "Cant add a rooted node to a different tree.  Use .tree(graft=node) instead."), s)
  else
    let s1 := s.setNode nodeId { s.nodeD nodeId with root := (s.nodeD selfId).root }
    let s2 := s1.setNode selfId
      { s1.nodeD selfId with
        tree := alistSet (s1.nodeD selfId).tree ((s1.nodeD nodeId).name) nodeId }
    match (s2.nodeD selfId).treepath with
    | none => (.error (.typeError "unsupported operand types for +: NoneType and str"), s2)
    | some p =>
      let s3 := s2.setNode nodeId
        { s2.nodeD nodeId with treepath := some (p ++ "/" ++ (s2.nodeD nodeId).name) }
      (.ok (), s3)

/-- The value passed as `merge_metadata`: the assert compares it with `==`
against `True`, `False` and the string `copy`; `mOther` stands for any value
equal to none of the three.  (Python values are abstracted by their `==`
class: e.g. the integer 1, which compares equal to True, would be `mTrue`.) -/
inductive MergeArg where
  | mTrue
  | mFalse
  | mCopy
  | mOther
deriving DecidableEq, Repr

/-- The two metadata-merge loops of `Node.graft`: for each key of the old
root's `_metadata` (snapshot of the keys; values are read live), assign the
bundle — or its `copy()` — to `node.root.metadata`, i.e. store it in the new
root's `_metadata` under the bundle's own `name`.  A `copy()` allocates a
fresh `Metadata` instance with identical content (modelled from the spec,
`Metadata` not being among the sources). -/
def mergeKeys (s : State) (oldRootId newRootId : NodeId) :
    List String → Bool → State
  | [], _ => s
  | key :: rest, docopy =>
    match alistGet ((s.nodeD oldRootId).metadata) key with
    | none => mergeKeys s oldRootId newRootId rest docopy
    | some mid =>
      if docopy then
        let cid := s.nextMeta
        let s1 : State :=
          { s with metas := s.metas ++ [(cid, s.metaD mid)], nextMeta := s.nextMeta + 1 }
        let s2 := s1.setNode newRootId
          { s1.nodeD newRootId with
            metadata := alistSet (s1.nodeD newRootId).metadata ((s1.metaD cid).name) cid }
        mergeKeys s2 oldRootId newRootId rest docopy
      else
        let s1 := s.setNode newRootId
          { s.nodeD newRootId with
            metadata := alistSet (s.nodeD newRootId).metadata ((s.metaD mid).name) mid }
        mergeKeys s1 oldRootId newRootId rest docopy

/-- `Node.graft(node, merge_metadata)`: assert both sides rooted; locate the
upstream node by popping the last segment of `self._treepath` and resolving
the rest via `get_from_tree`; delete the entry from the upstream `_tree`;
clear `self._root`; `node.add_to_tree(self)`; assert the merge mode; merge
the old root's metadata accordingly; return `node.root`. -/
def graft (s : State) (selfId nodeId : NodeId) (mm : MergeArg) :
    (Except PyErr NodeId) × State :=
  if (s.nodeD selfId).root = none then
    (.error (.assertionError
      "Cant graft an unrooted node; try using .tree(add=node) instead."), s)
  else if (s.nodeD nodeId).root = none then
    (.error (.assertionError "Cant graft onto an unrooted node"), s)
  else
    let oldRoot := ((s.nodeD selfId).root).getD 0
    match (s.nodeD selfId).treepath with
    | none => (.error (.attributeError "NoneType object has no attribute split"), s)
    | some tp =>
      match (pySplit tp '/').reverse with
      | [] => (.error .indexError, s)
      | thisNode :: restRev =>
        let treepath := joinSlash restRev.reverse
        match get_from_tree s selfId treepath with
        | .error e => (.error e, s)
        | .ok upId =>
          match alistGet ((s.nodeD upId).tree) thisNode with
          | none => (.error (.keyError thisNode), s)
          | some _ =>
            let s1 := s.setNode upId
              { s.nodeD upId with tree := alistDel ((s.nodeD upId).tree) thisNode }
            let s2 := s1.setNode selfId { s1.nodeD selfId with root := none }
            match add_to_tree s2 nodeId selfId with
            | (.error e, s3) => (.error e, s3)
            | (.ok _, s3) =>
              match mm with
              | .mOther => (.error (.assertionError ""), s3)
              | .mFalse =>
                -- `return node.root`: the none case is unreachable, since a
                -- successful add_to_tree required node.root to be non-null and
                -- never overwrites it (Python would return None here).
                match (s3.nodeD nodeId).root with
                | none => (.error (.attributeError "NoneType has no attribute metadata"), s3)
                | some nr => (.ok nr, s3)
              | .mTrue =>
                match (s3.nodeD nodeId).root with
                | none => (.error (.attributeError "NoneType has no attribute metadata"), s3)
                | some nr =>
                  (.ok nr, mergeKeys s3 oldRoot nr
                    (((s3.nodeD oldRoot).metadata).map Prod.fst) false)
              | .mCopy =>
                match (s3.nodeD nodeId).root with
                | none => (.error (.attributeError "NoneType has no attribute metadata"), s3)
                | some nr =>
                  (.ok nr, mergeKeys s3 oldRoot nr
                    (((s3.nodeD oldRoot).metadata).map Prod.fst) true)

/-- `Node.cut_from_tree(root_metadata)`: allocate a fresh
`Root(name=self.name)` and graft `self` onto it. -/
def cut_from_tree (s : State) (selfId : NodeId) (rootMetadata : MergeArg) :
    (Except PyErr NodeId) × State :=
  let newId := s.nextNode
  let s1 : State :=
    { s with nodes := s.nodes ++ [(newId, mkRoot newId ((s.nodeD selfId).name))],
             nextNode := s.nextNode + 1 }
  graft s1 selfId newId rootMetadata

/-- A Python value passed to `Node.tree` as the positional `arg` or as a
keyword value: a bool, a Node, a string, a length-2 tuple
`(node, metadata)`, or `None`. -/
inductive PyVal where
  | vBool (b : Bool)
  | vNode (n : NodeId)
  | vStr (s : String)
  | vPair (n : NodeId) (m : MergeArg)
  | vNone
deriving DecidableEq, Repr

/-- How `merge_metadata in [True, False, "copy"]` classifies a value passed
through `.tree(cut=value)`. -/
def toMergeArg : PyVal → MergeArg
  | .vBool true => .mTrue
  | .vBool false => .mFalse
  | .vStr s => if s = "copy" then .mCopy else .mOther
  | _ => .mOther

/-- Which of the five sub-operations a `.tree(...)` call dispatched to. -/
inductive OpKind where
  | opShow
  | opAdd
  | opGet
  | opCut
  | opGraft
deriving DecidableEq, Repr

deriving instance DecidableEq for Except

/-- Result of a `.tree(...)` call: the returned value (`none` models
Python's `None` return), the heap afterwards, and which sub-operations were
dispatched to (instrumentation for the dispatch claims). -/
structure TreeCall where
  ret : Except PyErr (Option NodeId)
  state : State
  performed : List OpKind
deriving DecidableEq, Repr

/-- `Node.tree(arg, **kwargs)`: dispatch on the type of `arg`
(bool, Node, str); an `arg` of another non-None type fails the
`assert(arg is None)`.  Only when `arg is None` are the kwargs examined:
zero kwargs shows the tree, more than one fails the length-1 assert, and a
single kwarg must be one of show/add/get/cut/graft.  The `add` branch with
a non-Node value evaluates an f-string referencing the undefined name
`value`, hence NameError.  A graft value must be a Node or a length-2
tuple; `len` of a bool or None raises TypeError. -/
def tree (s : State) (selfId : NodeId) (arg : PyVal)
    (kwargs : List (String × PyVal)) : TreeCall :=
  match arg with
  | .vBool b =>
    match show_tree s selfId b with
    | .ok _ => ⟨.ok none, s, [.opShow]⟩
    | .error e => ⟨.error e, s, [.opShow]⟩
  | .vNode n =>
    match add_to_tree s selfId n with
    | (.ok _, s2) => ⟨.ok none, s2, [.opAdd]⟩
    | (.error e, s2) => ⟨.error e, s2, [.opAdd]⟩
  | .vStr str =>
    match get_from_tree s selfId str with
    | .ok nid => ⟨.ok (some nid), s, [.opGet]⟩
    | .error e => ⟨.error e, s, [.opGet]⟩
  | .vPair _ _ =>
    ⟨.error (.assertionError "invalid arg type passed to .tree()"), s, []⟩
  | .vNone =>
    match kwargs with
    | [] =>
      match show_tree s selfId false with
      | .ok _ => ⟨.ok none, s, [.opShow]⟩
      | .error e => ⟨.error e, s, [.opShow]⟩
    | [(k, v)] =>
      if k ∉ (["show", "add", "get", "cut", "graft"] : List String) then
        ⟨.error (.assertionError ("invalid keyword passed to .tree(), " ++ k)), s, []⟩
      else if k = "show" then
        match v with
        | .vBool b =>
          match show_tree s selfId b with
          | .ok _ => ⟨.ok none, s, [.opShow]⟩
          | .error e => ⟨.error e, s, [.opShow]⟩
        | _ => ⟨.error (.assertionError ".tree(show=value) requires type(value)==bool"), s, []⟩
      else if k = "add" then
        match v with
        | .vNode n =>
          match add_to_tree s selfId n with
          | (.ok _, s2) => ⟨.ok none, s2, [.opAdd]⟩
          | (.error e, s2) => ⟨.error e, s2, [.opAdd]⟩
        | _ => ⟨.error (.nameError "value"), s, []⟩
      else if k = "get" then
        match v with
        | .vStr str =>
          match get_from_tree s selfId str with
          | .ok nid => ⟨.ok (some nid), s, [.opGet]⟩
          | .error e => ⟨.error e, s, [.opGet]⟩
        | _ => ⟨.error (.assertionError ".tree(get=value) requires type(value)==str"), s, []⟩
      else if k = "cut" then
        match cut_from_tree s selfId (toMergeArg v) with
        | (.ok nid, s2) => ⟨.ok (some nid), s2, [.opCut]⟩
        | (.error e, s2) => ⟨.error e, s2, [.opCut]⟩
      else
        match v with
        | .vNode n =>
          match graft s selfId n .mTrue with
          | (.ok nid, s2) => ⟨.ok (some nid), s2, [.opGraft]⟩
          | (.error e, s2) => ⟨.error e, s2, [.opGraft]⟩
        | .vPair n m =>
          match graft s selfId n m with
          | (.ok nid, s2) => ⟨.ok (some nid), s2, [.opGraft]⟩
          | (.error e, s2) => ⟨.error e, s2, [.opGraft]⟩
        | .vStr str =>
          -- a 2-character string passes the len(v)==2 check and unpacks into
          -- n,m = its characters; graft then asserts self.root before
          -- node.root dies on the str
          if str.length = 2 then
            if (s.nodeD selfId).root = none then
              ⟨.error (.assertionError
                "Cant graft an unrooted node; try using .tree(add=node) instead."), s,
                [.opGraft]⟩
            else
              ⟨.error (.attributeError "str object has no attribute root"), s, [.opGraft]⟩
          else
            ⟨.error (.assertionError
              ".tree(graft=x) requires x=Node or x=(node,metadata)"), s, []⟩
        | _ => ⟨.error (.typeError "object of this type has no len()"), s, []⟩
    | kws =>
      ⟨.error (.assertionError
        ("kwargs accepts at most 1 argument; recieved " ++ toString kws.length)), s, []⟩

/-- Modelled from the spec: `EMD_group_types` is imported from
`py4DSTEM.io.classes.class_io_utils`, which is not among the sources; the
spec fixes the recognized vocabulary as including at least "node", "root"
and "metadatabundle". -/
def EMD_group_types : List String := ["node", "root", "metadatabundle"]

/-- The class-level attribute `_emd_group_type` as seen by
`self.__class__._emd_group_type`: the class `Node` defines it as "node";
`Root.__init__` assigns `self._emd_group_type = "root"` on the *instance*
only, so a class-level lookup on `Root` falls back to the inherited
`Node._emd_group_type`, i.e. "node", for both classes. -/
def classEmdGroupType (_isRoot : Bool) : String := "node"

/-- `self.__class__.__name__` for the two classes of tree.py. -/
def pyClassName (isRoot : Bool) : String := if isRoot then "Root" else "Node"

/-- The metadata container sub-group written by `Node.to_h5`: its attributes
and the names under which the bundles are serialized. -/
structure H5MetaGroup where
  attrs : List (String × String)
  bundles : List String
deriving DecidableEq, Repr

/-- The HDF5 sub-group created by `Node.to_h5`: its name, attributes, and
optional metadata container. -/
structure H5Group where
  name : String
  attrs : List (String × String)
  metadataGroup : Option H5MetaGroup
deriving DecidableEq, Repr

/-- `Node.to_h5(group)`: assert the class-level group type is recognized;
create a sub-group named after the node, tagged with `emd_group_type` (the
class-level `_emd_group_type`) and `python_class`; if any metadata is
present, create a `_metadata` sub-group tagged "metadatabundle", rename
each bundle to its dict key, and serialize each into it (the write itself
is modelled from the spec: `Metadata.to_h5` stores the bundle keyed by its
name). -/
def to_h5 (s : State) (selfId : NodeId) : (Except PyErr H5Group) × State :=
  let d := s.nodeD selfId
  if classEmdGroupType d.isRoot ∉ EMD_group_types then
    (.error (.assertionError ""), s)
  else
    let attrs := [("emd_group_type", classEmdGroupType d.isRoot),
                  ("python_class", pyClassName d.isRoot)]
    if d.metadata.isEmpty then
      (.ok { name := d.name, attrs := attrs, metadataGroup := none }, s)
    else
      let s2 := d.metadata.foldl
        (fun st kv => st.setMeta kv.2 { st.metaD kv.2 with name := kv.1 }) s
      (.ok { name := d.name, attrs := attrs,
             metadataGroup := some { attrs := [("emd_group_type", "metadatabundle")],
                                     bundles := d.metadata.map Prod.fst } }, s2)

/-- All nodes reachable through `_tree` dictionaries from `i`, strictly
below `i`, with recursion depth bounded by `fuel`. -/
def descendantsFuel (s : State) : Nat → NodeId → List NodeId
  | 0, _ => []
  | fuel + 1, i =>
    ((s.nodeD i).tree).foldr
      (fun kv acc => kv.2 :: descendantsFuel s fuel kv.2 ++ acc) []

/-- The nodes reachable from root `r` through child trees, at any depth
(the heap size bounds the depth of any acyclic tree). -/
def reachableFrom (s : State) (r : NodeId) : List NodeId :=
  descendantsFuel s s.nodes.length r

/-- Every reachable node paired with its actual `/`-delimited address as
given by the chain of `_tree` memberships from the starting node down. -/
def addressedFrom (s : State) : Nat → String → NodeId → List (String × NodeId)
  | 0, _, _ => []
  | fuel + 1, pre, i =>
    ((s.nodeD i).tree).foldr
      (fun kv acc =>
        (pre ++ "/" ++ kv.1, kv.2) ::
          addressedFrom s fuel (pre ++ "/" ++ kv.1) kv.2 ++ acc) []

/-
Concrete scenario: a heap holding `Root("R")` (id 0, carrying two metadata
bundles), plain nodes `a` (1), `b` (2), `c` (4), and a second `Root("S")`
(id 3).  `demoA`/`demoB`/`demoC` chain `add_to_tree` to build the tree
R / a / b / c; `demoG` then grafts the branch at `b` onto `S`.
-/

def demo0 : State :=
  { nodes := [(0, { mkRoot 0 "R" with metadata := [("m1", 0), ("m2", 1)] }),
              (1, mkNode "a"), (2, mkNode "b"),
              (3, mkRoot 3 "S"), (4, mkNode "c")],
    metas := [(0, { name := "m1", data := [("k1", "v1")] }),
              (1, { name := "m2", data := [] })],
    nextNode := 5, nextMeta := 2 }

/-- `R.add_to_tree(a)`. -/
def demoA : State := (add_to_tree demo0 0 1).2

/-- then `a.add_to_tree(b)`. -/
def demoB : State := (add_to_tree demoA 1 2).2

/-- then `b.add_to_tree(c)`: R / a / b / c, with paths "/a", "/a/b",
"/a/b/c". -/
def demoC : State := (add_to_tree demoB 2 4).2

/-- then `b.graft(S, merge_metadata=True)`: moves the branch b / c under
the root S. -/
def demoG : State := (graft demoC 2 3 .mTrue).2

/-- The segment list of a path read the way claim C9 words it — "after
stripping leading '/' separators": drop every leading empty segment
produced by splitting on '/'.  (Claim-side definition, for comparison with
the code's `removeTwice`.) -/
def claimSegments (x : String) : List String :=
  (pySplit x '/').dropWhile (fun a => a = "")

theorem alistGet_set_self {κ α : Type} [DecidableEq κ] (l : List (κ × α)) (k : κ) (v : α) :
    alistGet (alistSet l k v) k = some v := by
  induction l with
  | nil => simp [alistSet, alistGet]
  | cons p rest ih =>
    by_cases h : p.1 = k
    · simp [alistSet, alistGet, h]
    · simpa [alistSet, alistGet, h] using ih

theorem alistGet_set_ne {κ α : Type} [DecidableEq κ] (l : List (κ × α)) (k k1 : κ) (v : α)
    (h : k1 ≠ k) : alistGet (alistSet l k v) k1 = alistGet l k1 := by
  induction l with
  | nil => simp [alistSet, alistGet, Ne.symm h]
  | cons p rest ih =>
    rcases p with ⟨kp, w⟩
    by_cases hp : kp = k
    · subst hp
      simp [alistSet, alistGet, Ne.symm h]
    · simp [alistSet, alistGet, hp, ih]

theorem alistSet_eq_of_get {κ α : Type} [DecidableEq κ] (l : List (κ × α)) (k : κ) (v : α)
    (h : alistGet l k = some v) : alistSet l k v = l := by
  induction l with
  | nil => simp [alistGet] at h
  | cons p rest ih =>
    by_cases hp : p.1 = k
    · rcases p with ⟨k1, w⟩
      simp only [alistGet] at h
      simp only at hp
      subst hp
      simp only [if_pos rfl] at h
      cases h
      simp [alistSet]
    · simp only [alistGet, if_neg hp] at h
      simp [alistSet, hp, ih h]

theorem alistGet_del_ne {κ α : Type} [DecidableEq κ] (l : List (κ × α)) (k k1 : κ)
    (h : k1 ≠ k) : alistGet (alistDel l k) k1 = alistGet l k1 := by
  induction l with
  | nil => simp [alistDel, alistGet]
  | cons p rest ih =>
    rcases p with ⟨kp, w⟩
    simp only [alistDel, List.filter_cons, ne_eq, decide_not] at ih ⊢
    by_cases hp : kp = k
    · subst hp
      have hk : ¬kp = k1 := fun hh => h (hh ▸ rfl)
      simpa [alistGet, hk] using ih
    · simp [alistGet, hp, ih]

theorem alistGet_append_ne {κ α : Type} [DecidableEq κ] (l : List (κ × α)) (k k2 : κ) (v : α)
    (h : k ≠ k2) : alistGet (l ++ [(k2, v)]) k = alistGet l k := by
  induction l with
  | nil => simp [alistGet, Ne.symm h]
  | cons p rest ih =>
    rcases p with ⟨kp, w⟩
    by_cases hp : kp = k <;> simp [alistGet, hp, ih]

theorem alistGet_append_fresh {κ α : Type} [DecidableEq κ] (l : List (κ × α)) (k : κ) (v : α)
    (h : ∀ p ∈ l, p.1 ≠ k) : alistGet (l ++ [(k, v)]) k = some v := by
  induction l with
  | nil => simp [alistGet]
  | cons p rest ih =>
    have hp := h p (by simp)
    simp only [List.cons_append, alistGet, if_neg hp]
    exact ih (fun q hq => h q (by simp [hq]))

theorem alistGet_of_mem_nodup {κ α : Type} [DecidableEq κ] (l : List (κ × α)) (k : κ) (v : α)
    (h : (k, v) ∈ l) (hn : (l.map Prod.fst).Nodup) : alistGet l k = some v := by
  induction l with
  | nil => simp at h
  | cons p rest ih =>
    simp only [List.map_cons, List.nodup_cons] at hn
    rcases List.mem_cons.1 h with h1 | h1
    · subst h1; simp [alistGet]
    · have hp : p.1 ≠ k := by
        intro hk
        exact hn.1 (hk ▸ (List.mem_map.2 ⟨(k, v), h1, rfl⟩))
      simp [alistGet, hp, ih h1 hn.2]

theorem nodeD_setNode_self (s : State) (i : NodeId) (d : NodeData) :
    (s.setNode i d).nodeD i = d := by
  simp [State.setNode, State.nodeD, alistGet_set_self]

theorem nodeD_setNode_ne (s : State) (i j : NodeId) (d : NodeData) (h : j ≠ i) :
    (s.setNode i d).nodeD j = s.nodeD j := by
  simp [State.setNode, State.nodeD, alistGet_set_ne _ _ _ _ h]

theorem metas_setNode (s : State) (i : NodeId) (d : NodeData) :
    (s.setNode i d).metas = s.metas := rfl

theorem nextMeta_setNode (s : State) (i : NodeId) (d : NodeData) :
    (s.setNode i d).nextMeta = s.nextMeta := rfl

theorem metaD_setNode (s : State) (i : NodeId) (d : NodeData) (m : MetaId) :
    (s.setNode i d).metaD m = s.metaD m := rfl

theorem add_to_tree_frame (s : State) (a b i : NodeId) :
    ((add_to_tree s a b).2.nodeD i).metadata = (s.nodeD i).metadata ∧
    ((add_to_tree s a b).2.nodeD i).name = (s.nodeD i).name ∧
    (i ≠ b → ((add_to_tree s a b).2.nodeD i).root = (s.nodeD i).root ∧
             ((add_to_tree s a b).2.nodeD i).treepath = (s.nodeD i).treepath) ∧
    (i ≠ a → ((add_to_tree s a b).2.nodeD i).tree = (s.nodeD i).tree) := by
  by_cases h1 : (s.nodeD a).root = none
  · simp [add_to_tree, h1]
  by_cases h2 : (s.nodeD b).root = none
  case neg => simp [add_to_tree, h1, h2]
  have hab : a ≠ b := by
    intro h
    rw [h, h2] at h1
    exact h1 rfl
  simp only [add_to_tree, if_neg h1, h2, ne_eq, not_true_eq_false, if_false]
  split
  · by_cases hia : i = a
    · subst hia
      simp [nodeD_setNode_self, nodeD_setNode_ne _ _ _ _ hab, hab]
    · by_cases hib : i = b
      · subst hib
        simp [nodeD_setNode_self, nodeD_setNode_ne _ _ _ _ (Ne.symm hab),
          nodeD_setNode_ne _ _ _ _ hia]
      · simp [nodeD_setNode_ne _ _ _ _ hia, nodeD_setNode_ne _ _ _ _ hib]
  · by_cases hia : i = a
    · subst hia
      simp [nodeD_setNode_self, nodeD_setNode_ne _ _ _ _ hab, hab]
    · by_cases hib : i = b
      · subst hib
        simp [nodeD_setNode_self, nodeD_setNode_ne _ _ _ _ (Ne.symm hab),
          nodeD_setNode_ne _ _ _ _ hia]
      · simp [nodeD_setNode_ne _ _ _ _ hia, nodeD_setNode_ne _ _ _ _ hib]

theorem add_to_tree_store (s : State) (a b : NodeId) :
    (add_to_tree s a b).2.metas = s.metas ∧
    (add_to_tree s a b).2.nextMeta = s.nextMeta ∧
    (add_to_tree s a b).2.nextNode = s.nextNode := by
  by_cases h1 : (s.nodeD a).root = none
  · simp [add_to_tree, h1]
  by_cases h2 : (s.nodeD b).root = none
  case neg => simp [add_to_tree, h1, h2]
  simp only [add_to_tree, if_neg h1, h2, ne_eq, not_true_eq_false, if_false]
  split <;> simp [State.setNode]

theorem add_to_tree_ok_facts (s : State) (a b : NodeId) (s' : State)
    (h : add_to_tree s a b = (Except.ok (), s')) :
    (s.nodeD a).root ≠ none ∧ (s.nodeD b).root = none ∧
    (s'.nodeD b).root = (s.nodeD a).root ∧
    (∃ p, (s.nodeD a).treepath = some p ∧
      (s'.nodeD b).treepath = some (p ++ "/" ++ (s.nodeD b).name)) ∧
    alistGet ((s'.nodeD a).tree) ((s.nodeD b).name) = some b := by
  by_cases h1 : (s.nodeD a).root = none
  · simp [add_to_tree, h1] at h
  by_cases h2 : (s.nodeD b).root = none
  case neg => simp [add_to_tree, h1, h2] at h
  have hab : a ≠ b := by
    intro hh
    rw [hh, h2] at h1
    exact h1 rfl
  simp only [add_to_tree, if_neg h1, h2, ne_eq, not_true_eq_false, if_false] at h
  split at h
  · simp at h
  · rename_i p heq
    rcases Prod.mk.injEq .. ▸ h with ⟨-, hs⟩
    have hpath : (s.nodeD a).treepath = some p := by
      simpa [nodeD_setNode_self, nodeD_setNode_ne _ _ _ _ hab] using heq
    refine ⟨h1, h2, ?_, ⟨p, hpath, ?_⟩, ?_⟩
    · rw [← hs]
      simp [nodeD_setNode_self, nodeD_setNode_ne _ _ _ _ hab,
        nodeD_setNode_ne _ _ _ _ (Ne.symm hab)]
    · rw [← hs]
      simp [nodeD_setNode_self, nodeD_setNode_ne _ _ _ _ hab,
        nodeD_setNode_ne _ _ _ _ (Ne.symm hab)]
    · rw [← hs]
      simp [nodeD_setNode_self, nodeD_setNode_ne _ _ _ _ hab,
        nodeD_setNode_ne _ _ _ _ (Ne.symm hab), alistGet_set_self]

theorem nodeD_fields_setNode_meta (s : State) (n : NodeId) (md : List (String × MetaId))
    (i : NodeId) :
    ((s.setNode n { s.nodeD n with metadata := md }).nodeD i).root = (s.nodeD i).root ∧
    ((s.setNode n { s.nodeD n with metadata := md }).nodeD i).treepath = (s.nodeD i).treepath ∧
    ((s.setNode n { s.nodeD n with metadata := md }).nodeD i).name = (s.nodeD i).name ∧
    ((s.setNode n { s.nodeD n with metadata := md }).nodeD i).tree = (s.nodeD i).tree := by
  by_cases hin : i = n
  · subst hin
    simp [nodeD_setNode_self]
  · simp [nodeD_setNode_ne _ _ _ _ hin]

theorem mergeKeys_preserves (keys : List String) (s : State) (o n : NodeId) (c : Bool)
    (i : NodeId) :
    ((mergeKeys s o n keys c).nodeD i).root = (s.nodeD i).root ∧
    ((mergeKeys s o n keys c).nodeD i).treepath = (s.nodeD i).treepath ∧
    ((mergeKeys s o n keys c).nodeD i).name = (s.nodeD i).name ∧
    ((mergeKeys s o n keys c).nodeD i).tree = (s.nodeD i).tree := by
  induction keys generalizing s with
  | nil => simp [mergeKeys]
  | cons key rest ih =>
    simp only [mergeKeys]
    cases hget : alistGet ((s.nodeD o).metadata) key with
    | none => exact ih s
    | some mid =>
      cases c with
      | false =>
        obtain ⟨h1, h2, h3, h4⟩ := ih
          (s.setNode n { s.nodeD n with
            metadata := alistSet ((s.nodeD n).metadata) ((s.metaD mid).name) mid })
        obtain ⟨g1, g2, g3, g4⟩ := nodeD_fields_setNode_meta s n
          (alistSet ((s.nodeD n).metadata) ((s.metaD mid).name) mid) i
        exact ⟨h1.trans g1, h2.trans g2, h3.trans g3, h4.trans g4⟩
      | true =>
        set s1 : State :=
          { s with metas := s.metas ++ [(s.nextMeta, s.metaD mid)],
                   nextMeta := s.nextMeta + 1 } with hs1
        obtain ⟨h1, h2, h3, h4⟩ := ih
          (s1.setNode n { s1.nodeD n with
            metadata := alistSet ((s1.nodeD n).metadata) ((s1.metaD s.nextMeta).name) s.nextMeta })
        obtain ⟨g1, g2, g3, g4⟩ := nodeD_fields_setNode_meta s1 n
          (alistSet ((s1.nodeD n).metadata) ((s1.metaD s.nextMeta).name) s.nextMeta) i
        exact ⟨h1.trans g1, h2.trans g2, h3.trans g3, h4.trans g4⟩

theorem mergeKeys_false_store (keys : List String) (s : State) (o n : NodeId) :
    (mergeKeys s o n keys false).metas = s.metas ∧
    (mergeKeys s o n keys false).nextMeta = s.nextMeta ∧
    (mergeKeys s o n keys false).nextNode = s.nextNode := by
  induction keys generalizing s with
  | nil => simp [mergeKeys]
  | cons key rest ih =>
    simp only [mergeKeys]
    cases hget : alistGet ((s.nodeD o).metadata) key with
    | none => exact ih s
    | some mid => exact ih _

theorem step_false_ometa (s : State) (o n : NodeId) (key : String) (mid : MetaId)
    (hget : alistGet ((s.nodeD o).metadata) key = some mid)
    (hname : (s.metaD mid).name = key) :
    ((s.setNode n { s.nodeD n with
        metadata := alistSet ((s.nodeD n).metadata) ((s.metaD mid).name) mid }).nodeD o).metadata
      = (s.nodeD o).metadata := by
  by_cases hno : o = n
  · subst hno
    rw [nodeD_setNode_self]
    show alistSet _ _ _ = _
    rw [hname]
    exact alistSet_eq_of_get _ _ _ hget
  · rw [nodeD_setNode_ne _ _ _ _ hno]

theorem mergeKeys_cons_none (s : State) (o n : NodeId) (key : String) (rest : List String)
    (c : Bool) (hget : alistGet ((s.nodeD o).metadata) key = none) :
    mergeKeys s o n (key :: rest) c = mergeKeys s o n rest c := by
  simp only [mergeKeys, hget]

theorem mergeKeys_cons_false (s : State) (o n : NodeId) (key : String) (rest : List String)
    (mid : MetaId) (hget : alistGet ((s.nodeD o).metadata) key = some mid) :
    mergeKeys s o n (key :: rest) false =
      mergeKeys (s.setNode n { s.nodeD n with
        metadata := alistSet ((s.nodeD n).metadata) ((s.metaD mid).name) mid }) o n rest false := by
  simp only [mergeKeys, hget]
  rfl

theorem mergeKeys_cons_true (s : State) (o n : NodeId) (key : String) (rest : List String)
    (mid : MetaId) (hget : alistGet ((s.nodeD o).metadata) key = some mid) :
    mergeKeys s o n (key :: rest) true =
      mergeKeys
        ((⟨s.nodes, s.metas ++ [(s.nextMeta, s.metaD mid)], s.nextNode, s.nextMeta + 1⟩ :
            State).setNode n
          { (⟨s.nodes, s.metas ++ [(s.nextMeta, s.metaD mid)], s.nextNode, s.nextMeta + 1⟩ :
               State).nodeD n with
            metadata := alistSet
               (((⟨s.nodes, s.metas ++ [(s.nextMeta, s.metaD mid)], s.nextNode,
                    s.nextMeta + 1⟩ : State).nodeD n).metadata)
               (((⟨s.nodes, s.metas ++ [(s.nextMeta, s.metaD mid)], s.nextNode,
                    s.nextMeta + 1⟩ : State).metaD s.nextMeta).name)
               s.nextMeta })
        o n rest true := by
  simp only [mergeKeys, hget]
  rfl

theorem mergeKeys_false_get_notin (keys : List String) (s : State) (o n : NodeId) (k : String)
    (hall : ∀ k1 ∈ keys, ∃ mid, alistGet ((s.nodeD o).metadata) k1 = some mid ∧
      (s.metaD mid).name = k1)
    (hk : k ∉ keys) :
    alistGet (((mergeKeys s o n keys false).nodeD n).metadata) k
      = alistGet ((s.nodeD n).metadata) k := by
  induction keys generalizing s with
  | nil => simp [mergeKeys]
  | cons key rest ih =>
    obtain ⟨mid, hget, hname⟩ := hall key (by simp)
    rw [mergeKeys_cons_false s o n key rest mid hget]
    have hometa := step_false_ometa s o n key mid hget hname
    have hall1 : ∀ k1 ∈ rest,
        ∃ mid1, alistGet (((s.setNode n { s.nodeD n with
            metadata := alistSet ((s.nodeD n).metadata) ((s.metaD mid).name) mid }).nodeD
              o).metadata) k1 = some mid1 ∧
          ((s.setNode n { s.nodeD n with
            metadata := alistSet ((s.nodeD n).metadata) ((s.metaD mid).name) mid }).metaD
              mid1).name = k1 := by
      intro k1 hk1
      obtain ⟨mid1, hg1, hn1⟩ := hall k1 (by simp [hk1])
      exact ⟨mid1, hometa ▸ hg1, hn1⟩
    have hkrest : k ∉ rest := fun hh => hk (by simp [hh])
    have hkey : k ≠ key := fun hh => hk (by simp [hh])
    rw [ih _ hall1 hkrest, nodeD_setNode_self]
    show alistGet (alistSet _ _ _) k = _
    rw [hname]
    exact alistGet_set_ne _ _ _ _ hkey

theorem mergeKeys_false_get_mem (keys : List String) (s : State) (o n : NodeId)
    (hall : ∀ k1 ∈ keys, ∃ mid, alistGet ((s.nodeD o).metadata) k1 = some mid ∧
      (s.metaD mid).name = k1)
    (hnd : keys.Nodup) :
    ∀ k ∈ keys, alistGet (((mergeKeys s o n keys false).nodeD n).metadata) k
      = alistGet ((s.nodeD o).metadata) k := by
  induction keys generalizing s with
  | nil => simp
  | cons key rest ih =>
    intro k hkmem
    obtain ⟨mid, hget, hname⟩ := hall key (by simp)
    rw [mergeKeys_cons_false s o n key rest mid hget]
    have hometa := step_false_ometa s o n key mid hget hname
    have hall1 : ∀ k1 ∈ rest,
        ∃ mid1, alistGet (((s.setNode n { s.nodeD n with
            metadata := alistSet ((s.nodeD n).metadata) ((s.metaD mid).name) mid }).nodeD
              o).metadata) k1 = some mid1 ∧
          ((s.setNode n { s.nodeD n with
            metadata := alistSet ((s.nodeD n).metadata) ((s.metaD mid).name) mid }).metaD
              mid1).name = k1 := by
      intro k1 hk1
      obtain ⟨mid1, hg1, hn1⟩ := hall k1 (by simp [hk1])
      exact ⟨mid1, hometa ▸ hg1, hn1⟩
    rcases List.mem_cons.1 hkmem with rfl | hkrest
    · have hknotin : k ∉ rest := (List.nodup_cons.1 hnd).1
      rw [mergeKeys_false_get_notin rest _ o n k hall1 hknotin, nodeD_setNode_self]
      show alistGet (alistSet _ _ _) k = _
      rw [hname, alistGet_set_self, hget]
    · rw [ih _ hall1 (List.nodup_cons.1 hnd).2 k hkrest, hometa]

theorem metaD_append_ne (s : State) (v : Meta) (j : MetaId) (hj : j ≠ s.nextMeta) :
    ((⟨s.nodes, s.metas ++ [(s.nextMeta, v)], s.nextNode, s.nextMeta + 1⟩ : State)).metaD j
      = s.metaD j := by
  show (alistGet (s.metas ++ [(s.nextMeta, v)]) j).getD _ = _
  rw [alistGet_append_ne _ _ _ _ hj]
  rfl

theorem metaD_append_self (s : State) (v : Meta)
    (hw : ∀ p ∈ s.metas, p.1 < s.nextMeta) :
    ((⟨s.nodes, s.metas ++ [(s.nextMeta, v)], s.nextNode, s.nextMeta + 1⟩ : State)).metaD
      s.nextMeta = v := by
  show (alistGet (s.metas ++ [(s.nextMeta, v)]) s.nextMeta).getD _ = _
  rw [alistGet_append_fresh _ _ _ (fun p hp => Nat.ne_of_lt (hw p hp))]
  rfl

theorem mergeKeys_hw (keys : List String) (s : State) (o n : NodeId) (c : Bool)
    (hw : ∀ p ∈ s.metas, p.1 < s.nextMeta) :
    ∀ p ∈ (mergeKeys s o n keys c).metas, p.1 < (mergeKeys s o n keys c).nextMeta := by
  induction keys generalizing s with
  | nil => simpa [mergeKeys] using hw
  | cons key rest ih =>
    cases hget : alistGet ((s.nodeD o).metadata) key with
    | none =>
      rw [mergeKeys_cons_none _ _ _ _ _ _ hget]
      exact ih s hw
    | some mid =>
      cases c with
      | false =>
        rw [mergeKeys_cons_false _ _ _ _ _ _ hget]
        exact ih _ hw
      | true =>
        rw [mergeKeys_cons_true _ _ _ _ _ _ hget]
        apply ih
        show ∀ p ∈ s.metas ++ [(s.nextMeta, s.metaD mid)], p.1 < s.nextMeta + 1
        intro p hp
        rcases List.mem_append.1 hp with h | h
        · exact Nat.lt_succ_of_lt (hw p h)
        · simp only [List.mem_singleton] at h
          rw [h]
          exact Nat.lt_succ_self _

theorem mergeKeys_nextMeta_le (keys : List String) (s : State) (o n : NodeId) (c : Bool) :
    s.nextMeta ≤ (mergeKeys s o n keys c).nextMeta := by
  induction keys generalizing s with
  | nil => simp [mergeKeys]
  | cons key rest ih =>
    cases hget : alistGet ((s.nodeD o).metadata) key with
    | none =>
      rw [mergeKeys_cons_none _ _ _ _ _ _ hget]
      exact ih s
    | some mid =>
      cases c with
      | false =>
        rw [mergeKeys_cons_false _ _ _ _ _ _ hget]
        exact ih (s.setNode n { s.nodeD n with
          metadata := alistSet ((s.nodeD n).metadata) ((s.metaD mid).name) mid })
      | true =>
        rw [mergeKeys_cons_true _ _ _ _ _ _ hget]
        refine le_trans (Nat.le_succ _) ?_
        exact ih
          ((⟨s.nodes, s.metas ++ [(s.nextMeta, s.metaD mid)], s.nextNode, s.nextMeta + 1⟩ :
              State).setNode n
            { (⟨s.nodes, s.metas ++ [(s.nextMeta, s.metaD mid)], s.nextNode,
                 s.nextMeta + 1⟩ : State).nodeD n with
              metadata := alistSet
                (((⟨s.nodes, s.metas ++ [(s.nextMeta, s.metaD mid)], s.nextNode,
                     s.nextMeta + 1⟩ : State).nodeD n).metadata)
                (((⟨s.nodes, s.metas ++ [(s.nextMeta, s.metaD mid)], s.nextNode,
                     s.nextMeta + 1⟩ : State).metaD s.nextMeta).name)
                s.nextMeta })

theorem mergeKeys_metaD_lt (keys : List String) (s : State) (o n : NodeId) (c : Bool)
    (j : MetaId) (hw : ∀ p ∈ s.metas, p.1 < s.nextMeta) (hj : j < s.nextMeta) :
    (mergeKeys s o n keys c).metaD j = s.metaD j := by
  induction keys generalizing s with
  | nil => simp [mergeKeys]
  | cons key rest ih =>
    cases hget : alistGet ((s.nodeD o).metadata) key with
    | none =>
      rw [mergeKeys_cons_none _ _ _ _ _ _ hget]
      exact ih s hw hj
    | some mid =>
      cases c with
      | false =>
        rw [mergeKeys_cons_false _ _ _ _ _ _ hget]
        exact ih _ hw hj
      | true =>
        rw [mergeKeys_cons_true _ _ _ _ _ _ hget]
        set sB : State :=
          ⟨s.nodes, s.metas ++ [(s.nextMeta, s.metaD mid)], s.nextNode, s.nextMeta + 1⟩
          with hsB
        have hw2 : ∀ p ∈ sB.metas, p.1 < sB.nextMeta := by
          show ∀ p ∈ s.metas ++ [(s.nextMeta, s.metaD mid)], p.1 < s.nextMeta + 1
          intro p hp
          rcases List.mem_append.1 hp with h | h
          · exact Nat.lt_succ_of_lt (hw p h)
          · simp only [List.mem_singleton] at h
            rw [h]
            exact Nat.lt_succ_self _
        have hj2 : j < sB.nextMeta := Nat.lt_succ_of_lt hj
        rw [ih (sB.setNode n { sB.nodeD n with
          metadata := alistSet ((sB.nodeD n).metadata) ((sB.metaD s.nextMeta).name)
            s.nextMeta }) hw2 hj2]
        show sB.metaD j = s.metaD j
        rw [hsB]
        exact metaD_append_ne s _ j (Nat.ne_of_lt hj)

theorem mergeKeys_copy_get_notin (keys : List String) (s : State) (o n : NodeId) (k : String)
    (hall : ∀ k1 ∈ keys, ∃ mid, alistGet ((s.nodeD o).metadata) k1 = some mid ∧
      (s.metaD mid).name = k1 ∧ mid < s.nextMeta)
    (hw : ∀ p ∈ s.metas, p.1 < s.nextMeta)
    (hnd : keys.Nodup) (hk : k ∉ keys) :
    alistGet (((mergeKeys s o n keys true).nodeD n).metadata) k
      = alistGet ((s.nodeD n).metadata) k := by
  induction keys generalizing s with
  | nil => simp [mergeKeys]
  | cons key rest ih =>
    obtain ⟨mid, hget, hname, hbound⟩ := hall key (by simp)
    rw [mergeKeys_cons_true s o n key rest mid hget]
    set sB : State :=
      ⟨s.nodes, s.metas ++ [(s.nextMeta, s.metaD mid)], s.nextNode, s.nextMeta + 1⟩ with hsB
    set s2 : State := sB.setNode n { sB.nodeD n with
      metadata := alistSet ((sB.nodeD n).metadata) ((sB.metaD s.nextMeta).name)
        s.nextMeta } with hs2
    have hcidname : (sB.metaD s.nextMeta).name = key := by
      rw [hsB, metaD_append_self s _ hw]
      exact hname
    have hBnodeD : ∀ x : NodeId, sB.nodeD x = s.nodeD x := fun x => rfl
    have hBmetaD_ne : ∀ j2, j2 ≠ s.nextMeta → sB.metaD j2 = s.metaD j2 := by
      intro j2 hj2
      rw [hsB]
      exact metaD_append_ne s _ j2 hj2
    have h2metaD : ∀ j2, s2.metaD j2 = sB.metaD j2 := fun j2 => rfl
    have h2nextMeta : s2.nextMeta = s.nextMeta + 1 := rfl
    have h2nodeo : ∀ k1, k1 ≠ key →
        alistGet ((s2.nodeD o).metadata) k1 = alistGet ((s.nodeD o).metadata) k1 := by
      intro k1 hk1
      by_cases hno : o = n
      · subst hno
        rw [hs2, nodeD_setNode_self]
        show alistGet (alistSet ((sB.nodeD o).metadata) ((sB.metaD s.nextMeta).name)
          s.nextMeta) k1 = _
        rw [hcidname, alistGet_set_ne _ _ _ _ hk1, hBnodeD]
      · rw [hs2, nodeD_setNode_ne _ _ _ _ hno, hBnodeD]
    have h2noden_ne : ∀ k1, k1 ≠ key →
        alistGet ((s2.nodeD n).metadata) k1 = alistGet ((s.nodeD n).metadata) k1 := by
      intro k1 hk1
      rw [hs2, nodeD_setNode_self]
      show alistGet (alistSet ((sB.nodeD n).metadata) ((sB.metaD s.nextMeta).name)
        s.nextMeta) k1 = _
      rw [hcidname, alistGet_set_ne _ _ _ _ hk1, hBnodeD]
    have hw2 : ∀ p ∈ s2.metas, p.1 < s2.nextMeta := by
      show ∀ p ∈ s.metas ++ [(s.nextMeta, s.metaD mid)], p.1 < s.nextMeta + 1
      intro p hp
      rcases List.mem_append.1 hp with h | h
      · exact Nat.lt_succ_of_lt (hw p h)
      · simp only [List.mem_singleton] at h
        rw [h]
        exact Nat.lt_succ_self _
    have hall2 : ∀ k1 ∈ rest, ∃ mid1, alistGet ((s2.nodeD o).metadata) k1 = some mid1 ∧
        (s2.metaD mid1).name = k1 ∧ mid1 < s2.nextMeta := by
      intro k1 hk1
      obtain ⟨mid1, hg1, hn1, hb1⟩ := hall k1 (by simp [hk1])
      have hne : k1 ≠ key := by
        intro hh
        exact (List.nodup_cons.1 hnd).1 (hh ▸ hk1)
      refine ⟨mid1, ?_, ?_, ?_⟩
      · rw [h2nodeo k1 hne]
        exact hg1
      · rw [h2metaD, hBmetaD_ne mid1 (Nat.ne_of_lt hb1)]
        exact hn1
      · rw [h2nextMeta]
        exact Nat.lt_succ_of_lt hb1
    have hkey : k ≠ key := fun hh => hk (by simp [hh])
    have hkrest : k ∉ rest := fun hh => hk (by simp [hh])
    rw [ih s2 hall2 hw2 (List.nodup_cons.1 hnd).2 hkrest]
    exact h2noden_ne k hkey

theorem mergeKeys_copy_get_mem (keys : List String) (s : State) (o n : NodeId)
    (hall : ∀ k1 ∈ keys, ∃ mid, alistGet ((s.nodeD o).metadata) k1 = some mid ∧
      (s.metaD mid).name = k1 ∧ mid < s.nextMeta)
    (hw : ∀ p ∈ s.metas, p.1 < s.nextMeta)
    (hnd : keys.Nodup) :
    ∀ k ∈ keys, ∃ mid cid, alistGet ((s.nodeD o).metadata) k = some mid ∧
      alistGet (((mergeKeys s o n keys true).nodeD n).metadata) k = some cid ∧
      s.nextMeta ≤ cid ∧ (mergeKeys s o n keys true).metaD cid = s.metaD mid := by
  induction keys generalizing s with
  | nil => simp
  | cons key rest ih =>
    intro k hkmem
    obtain ⟨mid, hget, hname, hbound⟩ := hall key (by simp)
    rw [mergeKeys_cons_true s o n key rest mid hget]
    set sB : State :=
      ⟨s.nodes, s.metas ++ [(s.nextMeta, s.metaD mid)], s.nextNode, s.nextMeta + 1⟩ with hsB
    set s2 : State := sB.setNode n { sB.nodeD n with
      metadata := alistSet ((sB.nodeD n).metadata) ((sB.metaD s.nextMeta).name)
        s.nextMeta } with hs2
    have hcidname : (sB.metaD s.nextMeta).name = key := by
      rw [hsB, metaD_append_self s _ hw]
      exact hname
    have hBnodeD : ∀ x : NodeId, sB.nodeD x = s.nodeD x := fun x => rfl
    have hBmetaD_ne : ∀ j2, j2 ≠ s.nextMeta → sB.metaD j2 = s.metaD j2 := by
      intro j2 hj2
      rw [hsB]
      exact metaD_append_ne s _ j2 hj2
    have h2metaD : ∀ j2, s2.metaD j2 = sB.metaD j2 := fun j2 => rfl
    have h2nextMeta : s2.nextMeta = s.nextMeta + 1 := rfl
    have h2nodeo : ∀ k1, k1 ≠ key →
        alistGet ((s2.nodeD o).metadata) k1 = alistGet ((s.nodeD o).metadata) k1 := by
      intro k1 hk1
      by_cases hno : o = n
      · subst hno
        rw [hs2, nodeD_setNode_self]
        show alistGet (alistSet ((sB.nodeD o).metadata) ((sB.metaD s.nextMeta).name)
          s.nextMeta) k1 = _
        rw [hcidname, alistGet_set_ne _ _ _ _ hk1, hBnodeD]
      · rw [hs2, nodeD_setNode_ne _ _ _ _ hno, hBnodeD]
    have h2noden_get : alistGet ((s2.nodeD n).metadata) key = some s.nextMeta := by
      rw [hs2, nodeD_setNode_self]
      show alistGet (alistSet ((sB.nodeD n).metadata) ((sB.metaD s.nextMeta).name)
        s.nextMeta) key = _
      rw [hcidname]
      exact alistGet_set_self _ _ _
    have hw2 : ∀ p ∈ s2.metas, p.1 < s2.nextMeta := by
      show ∀ p ∈ s.metas ++ [(s.nextMeta, s.metaD mid)], p.1 < s.nextMeta + 1
      intro p hp
      rcases List.mem_append.1 hp with h | h
      · exact Nat.lt_succ_of_lt (hw p h)
      · simp only [List.mem_singleton] at h
        rw [h]
        exact Nat.lt_succ_self _
    have hall2 : ∀ k1 ∈ rest, ∃ mid1, alistGet ((s2.nodeD o).metadata) k1 = some mid1 ∧
        (s2.metaD mid1).name = k1 ∧ mid1 < s2.nextMeta := by
      intro k1 hk1
      obtain ⟨mid1, hg1, hn1, hb1⟩ := hall k1 (by simp [hk1])
      have hne : k1 ≠ key := by
        intro hh
        exact (List.nodup_cons.1 hnd).1 (hh ▸ hk1)
      refine ⟨mid1, ?_, ?_, ?_⟩
      · rw [h2nodeo k1 hne]
        exact hg1
      · rw [h2metaD, hBmetaD_ne mid1 (Nat.ne_of_lt hb1)]
        exact hn1
      · rw [h2nextMeta]
        exact Nat.lt_succ_of_lt hb1
    rcases List.mem_cons.1 hkmem with rfl | hkrest
    · refine ⟨mid, s.nextMeta, hget, ?_, le_refl _, ?_⟩
      · rw [mergeKeys_copy_get_notin rest s2 o n k hall2 hw2 (List.nodup_cons.1 hnd).2
          (List.nodup_cons.1 hnd).1]
        exact h2noden_get
      · have hlt : s.nextMeta < s2.nextMeta := by
          rw [h2nextMeta]
          exact Nat.lt_succ_self _
        rw [mergeKeys_metaD_lt rest s2 o n true s.nextMeta hw2 hlt, h2metaD]
        rw [hsB]
        exact metaD_append_self s _ hw
    · obtain ⟨mid1, cid1, e1, e2, e3, e4⟩ := ih s2 hall2 hw2 (List.nodup_cons.1 hnd).2 k hkrest
      have hne : k ≠ key := by
        intro hh
        exact (List.nodup_cons.1 hnd).1 (hh ▸ hkrest)
      have he1 : alistGet ((s.nodeD o).metadata) k = some mid1 := by
        rw [← h2nodeo k hne]
        exact e1
      obtain ⟨midk, hgk, hnk, hbk⟩ := hall k (by simp [hkrest])
      have hmid1 : mid1 = midk := by
        rw [he1] at hgk
        exact Option.some.inj hgk
      refine ⟨mid1, cid1, he1, e2, ?_, ?_⟩
      · have e3x : s.nextMeta + 1 ≤ cid1 := by
          rw [← h2nextMeta]
          exact e3
        exact le_trans (Nat.le_succ _) e3x
      · rw [e4, h2metaD, hBmetaD_ne mid1 ?_]
        rw [hmid1]
        exact Nat.ne_of_lt hbk

theorem notfound_msg_ne_empty (k : String) :
    k ++ " not found in tree - check keys" ≠ "" := by
  intro h
  have hlen := congrArg String.length h
  rw [String.length_append] at hlen
  have hm : (" not found in tree - check keys").length = 31 := rfl
  have h0 : ("" : String).length = 0 := rfl
  rw [hm, h0] at hlen
  omega

theorem getitem_from_list_ne_blank (l : List String) (s : State)
    (t : List (String × NodeId)) :
    getitem_from_list s t l ≠ .error (.assertionError "") := by
  induction l generalizing t with
  | nil => simp [getitem_from_list]
  | cons k rest ih =>
    simp only [getitem_from_list]
    cases hget : alistGet t k with
    | none => simp [notfound_msg_ne_empty k]
    | some cid =>
      by_cases hr : rest.isEmpty
      · simp [hr]
      · simpa [hr] using ih ((s.nodeD cid).tree)

theorem get_from_tree_ne_blank (s : State) (i : NodeId) (name : String) :
    get_from_tree s i name ≠ .error (.assertionError "") := by
  unfold get_from_tree
  cases name.toList with
  | nil => simp
  | cons c cs =>
    by_cases hc : c ≠ '/'
    · simpa [hc] using getitem_from_list_ne_blank _ s _
    · cases hroot : (s.nodeD i).root with
      | none => simp [hc, hroot]
      | some r => simpa [hc, hroot] using getitem_from_list_ne_blank _ s _

theorem add_to_tree_fst_ne_blank (s : State) (a b : NodeId) :
    (add_to_tree s a b).1 ≠ .error (.assertionError "") := by
  unfold add_to_tree
  by_cases h1 : (s.nodeD a).root = none
  · simp [h1]
  by_cases h2 : (s.nodeD b).root = none
  case neg => simp [h1, h2]
  simp only [if_neg h1, h2, ne_eq, not_true_eq_false, if_false]
  split <;> simp

theorem graft_run (s : State) (a b : NodeId) (m : MergeArg) :
    (∃ e s2, graft s a b m = (.error e, s2) ∧ e ≠ PyErr.assertionError "") ∨
    (∃ s3 r,
      (∀ i, (s3.nodeD i).metadata = (s.nodeD i).metadata) ∧
      (∀ i, (s3.nodeD i).name = (s.nodeD i).name) ∧
      s3.metas = s.metas ∧
      s3.nextMeta = s.nextMeta ∧
      (s.nodeD b).root = some r ∧
      (s3.nodeD b).root = some r ∧
      (s3.nodeD a).root = (s.nodeD b).root ∧
      (∃ p, (s.nodeD b).treepath = some p ∧
        (s3.nodeD a).treepath = some (p ++ "/" ++ (s.nodeD a).name)) ∧
      alistGet ((s3.nodeD b).tree) ((s.nodeD a).name) = some a ∧
      (∀ i, i ≠ a → (s3.nodeD i).root = (s.nodeD i).root ∧
        (s3.nodeD i).treepath = (s.nodeD i).treepath) ∧
      (m = .mOther → graft s a b m = (.error (.assertionError ""), s3)) ∧
      (m = .mFalse → graft s a b m = (.ok r, s3)) ∧
      (m = .mTrue → graft s a b m = (.ok r,
        mergeKeys s3 (((s.nodeD a).root).getD 0) r
          (((s3.nodeD (((s.nodeD a).root).getD 0)).metadata).map Prod.fst) false)) ∧
      (m = .mCopy → graft s a b m = (.ok r,
        mergeKeys s3 (((s.nodeD a).root).getD 0) r
          (((s3.nodeD (((s.nodeD a).root).getD 0)).metadata).map Prod.fst) true))) := by
  by_cases h1 : (s.nodeD a).root = none
  · refine Or.inl ⟨PyErr.assertionError
      "Cant graft an unrooted node; try using .tree(add=node) instead.", s, ?_, by decide⟩
    simp [graft, h1]
  by_cases h2 : (s.nodeD b).root = none
  · refine Or.inl ⟨PyErr.assertionError "Cant graft onto an unrooted node", s, ?_, by decide⟩
    simp [graft, h1, h2]
  cases h3 : (s.nodeD a).treepath with
  | none =>
    refine Or.inl ⟨PyErr.attributeError "NoneType object has no attribute split", s, ?_,
      by decide⟩
    simp [graft, h1, h2, h3]
  | some tp =>
    cases h4 : (pySplit tp '/').reverse with
    | nil =>
      refine Or.inl ⟨PyErr.indexError, s, ?_, by decide⟩
      simp [graft, h1, h2, h3, h4]
    | cons thisN restRev =>
      cases h5 : get_from_tree s a (joinSlash restRev.reverse) with
      | error e =>
        refine Or.inl ⟨e, s, ?_, fun hh => get_from_tree_ne_blank s a _ (by rw [h5, hh])⟩
        simp [graft, h1, h2, h3, h4, h5]
      | ok upId =>
        cases h6 : alistGet ((s.nodeD upId).tree) thisN with
        | none =>
          refine Or.inl ⟨PyErr.keyError thisN, s, ?_, by simp⟩
          simp [graft, h1, h2, h3, h4, h5, h6]
        | some w =>
          set s2 : State := (s.setNode upId { s.nodeD upId with
              tree := alistDel ((s.nodeD upId).tree) thisN }).setNode a
            { (s.setNode upId { s.nodeD upId with
                tree := alistDel ((s.nodeD upId).tree) thisN }).nodeD a with
              root := none } with hs2
          have hs2f : ∀ i, (s2.nodeD i).metadata = (s.nodeD i).metadata ∧
              (s2.nodeD i).name = (s.nodeD i).name ∧
              (s2.nodeD i).treepath = (s.nodeD i).treepath ∧
              (i ≠ a → (s2.nodeD i).root = (s.nodeD i).root) := by
            intro i
            rw [hs2]
            by_cases hia : i = a
            · subst hia
              by_cases hau : i = upId
              · subst hau
                simp [nodeD_setNode_self]
              · simp [nodeD_setNode_self, nodeD_setNode_ne _ _ _ _ hau]
            · by_cases hiu : i = upId
              · subst hiu
                simp [nodeD_setNode_ne _ _ _ _ hia, nodeD_setNode_self]
              · simp [nodeD_setNode_ne _ _ _ _ hia, nodeD_setNode_ne _ _ _ _ hiu]
          have hs2store : s2.metas = s.metas ∧ s2.nextMeta = s.nextMeta := by
            rw [hs2]
            exact ⟨rfl, rfl⟩
          rcases hadd : add_to_tree s2 b a with ⟨res, s3⟩
          cases res with
          | error e =>
            refine Or.inl ⟨e, s3, ?_, fun hh => add_to_tree_fst_ne_blank s2 b a
              (by rw [hadd, hh])⟩
            cases m <;>
              (simp only [graft, if_neg h1, if_neg h2, h3, h4, h5, h6]
               rw [← hs2]
               simp [hadd])
          | ok u =>
            cases u
            obtain ⟨hbne, hanone, hrootset, ⟨p, hp2, hpath3⟩, htree3⟩ :=
              add_to_tree_ok_facts s2 b a s3 hadd
            have hab : a ≠ b := fun hh => hbne (hh ▸ hanone)
            have hrb : (s2.nodeD b).root = (s.nodeD b).root := (hs2f b).2.2.2 (Ne.symm hab)
            cases hrbs : (s.nodeD b).root with
            | none => exact absurd hrbs h2
            | some r =>
              have hframe : ∀ i, (s3.nodeD i).metadata = (s2.nodeD i).metadata ∧
                  (s3.nodeD i).name = (s2.nodeD i).name ∧
                  (i ≠ a → (s3.nodeD i).root = (s2.nodeD i).root ∧
                    (s3.nodeD i).treepath = (s2.nodeD i).treepath) ∧
                  (i ≠ b → (s3.nodeD i).tree = (s2.nodeD i).tree) := by
                intro i
                have hfr := add_to_tree_frame s2 b a i
                rw [hadd] at hfr
                exact hfr
              have hstore : s3.metas = s.metas ∧ s3.nextMeta = s.nextMeta := by
                have hst := add_to_tree_store s2 b a
                rw [hadd] at hst
                exact ⟨hst.1.trans hs2store.1, hst.2.1.trans hs2store.2⟩
              have hF4 : (s3.nodeD b).root = some r := by
                rw [((hframe b).2.2.1 (Ne.symm hab)).1, hrb, hrbs]
              have hgr : ∀ mm : MergeArg, graft s a b mm =
                  (match mm with
                   | MergeArg.mOther => (Except.error (PyErr.assertionError ""), s3)
                   | MergeArg.mFalse => (Except.ok r, s3)
                   | MergeArg.mTrue => (Except.ok r,
                       mergeKeys s3 (((s.nodeD a).root).getD 0) r
                         (((s3.nodeD (((s.nodeD a).root).getD 0)).metadata).map Prod.fst)
                         false)
                   | MergeArg.mCopy => (Except.ok r,
                       mergeKeys s3 (((s.nodeD a).root).getD 0) r
                         (((s3.nodeD (((s.nodeD a).root).getD 0)).metadata).map Prod.fst)
                         true)) := by
                intro mm
                cases mm <;>
                  (simp only [graft, if_neg h1, if_neg h2, h3, h4, h5, h6]
                   rw [← hs2]
                   simp [hadd, hF4])
              refine Or.inr ⟨s3, r, ?_, ?_, hstore.1, hstore.2, rfl, hF4, ?_, ?_, ?_, ?_,
                fun hm => by rw [hm, hgr], fun hm => by rw [hm, hgr],
                fun hm => by rw [hm, hgr], fun hm => by rw [hm, hgr]⟩
              · intro i
                exact (hframe i).1.trans (hs2f i).1
              · intro i
                exact (hframe i).2.1.trans (hs2f i).2.1
              · rw [hrootset, hrb, hrbs]
              · refine ⟨p, ?_, ?_⟩
                · rw [← (hs2f b).2.2.1]
                  exact hp2
                · rw [hpath3, (hs2f a).2.1]
              · rw [← (hs2f a).2.1]
                exact htree3
              · intro i hia
                refine ⟨((hframe i).2.2.1 hia).1.trans ((hs2f i).2.2.2 hia), ?_⟩
                exact ((hframe i).2.2.1 hia).2.trans (hs2f i).2.2.1

/-- C7: for every rooted node `p` and every already-rooted node `n`,
`p.add_to_tree(n)` fails with the AlreadyRootedError assertion ("Cant add a
rooted node to a different tree.  Use .tree(graft=node) instead.") and
returns the heap completely unchanged, so both trees keep their structure
and no root or path field is modified on either side. -/
theorem C7_theorem (s : State) (p n rp rn : NodeId)
    (hp : (s.nodeD p).root = some rp) (hn : (s.nodeD n).root = some rn) :
    add_to_tree s p n = (.error (.assertionError
      "Cant add a rooted node to a different tree.  Use .tree(graft=node) instead."), s) := by
  unfold add_to_tree
  rw [if_neg (by simp [hp]), if_pos (by simp [hn])]

/-- Witness for C7: in the heap `demoA` the Root "R" (id 0) and the Root
"S" (id 3) are both rooted, and `R.add_to_tree(S)` fails leaving the heap
unchanged. -/
theorem C7_witness :
    ((demoA.nodeD 0).root = some 0) ∧ ((demoA.nodeD 3).root = some 3) ∧
    add_to_tree demoA 0 3 = (.error (.assertionError
      "Cant add a rooted node to a different tree.  Use .tree(graft=node) instead."), demoA) :=
  ⟨by decide, by decide, C7_theorem demoA 0 3 0 3 (by decide) (by decide)⟩

/-- C10: for every unrooted node `n` (root is null) and every non-empty
name that begins with a `/`, `get_from_tree` takes the root-relative branch
and dereferences the null root (`self.root._tree`), raising AttributeError
regardless of the node's children; it neither resolves the path nor raises
a lookup error. -/
theorem C10_theorem (s : State) (i : NodeId) (name : String) (cs : List Char)
    (hroot : (s.nodeD i).root = none) (hname : name.toList = '/' :: cs) :
    get_from_tree s i name =
      .error (.attributeError "NoneType object has no attribute tree") := by
  unfold get_from_tree
  rw [hname]
  simp [hroot]

/-- Witness for C10: in `demo0` node 1 ("a") is unrooted, and looking up
"/a" from it raises the AttributeError even though a root-relative lookup
of "a" would be meaningful elsewhere. -/
theorem C10_witness :
    ((demo0.nodeD 1).root = none) ∧ ("/a".toList = '/' :: ['a']) ∧
    get_from_tree demo0 1 "/a" =
      .error (.attributeError "NoneType object has no attribute tree") :=
  ⟨by decide, by decide, C10_theorem demo0 1 "/a" ['a'] (by decide) (by decide)⟩

/-- C9 (amended): `Tree.__getitem__` fails with the distinct InvalidPath
error (Exception "invalid slice value to tree") exactly on the paths ""
and "/" — the code removes at most the first two empty segments produced
by splitting on "/" — and `_getitem_from_list` fails on an empty segment
list with the same error, while a first segment absent from the mapping
being searched fails with the KeyNotFound assertion naming that segment. -/
theorem C9_theorem :
    (∀ (s : State) (t : List (String × NodeId)),
      tree_getitem s t "" = .error (.exception "invalid slice value to tree")) ∧
    (∀ (s : State) (t : List (String × NodeId)),
      tree_getitem s t "/" = .error (.exception "invalid slice value to tree")) ∧
    (∀ (s : State) (t : List (String × NodeId)),
      getitem_from_list s t [] = .error (.exception "invalid slice value to tree")) ∧
    (∀ (s : State) (t : List (String × NodeId)) (k : String) (rest : List String),
      alistGet t k = none →
      getitem_from_list s t (k :: rest) =
        .error (.assertionError (k ++ " not found in tree - check keys"))) := by
  refine ⟨fun s t => rfl, fun s t => rfl, fun s t => rfl, ?_⟩
  intro s t k rest hget
  simp [getitem_from_list, hget]

/-- Counterexample for C9: the path "//" has zero segments once every
leading "/" separator is stripped (the claim's reading), yet the code
raises the KeyNotFound assertion naming the empty segment, not the
InvalidPath error: only "" and "/" reach the InvalidPath branch. -/
theorem C9_counterexample :
    claimSegments "//" = [] ∧
    tree_getitem demo0 [] "//" =
      .error (.assertionError " not found in tree - check keys") ∧
    tree_getitem demo0 [] "//" ≠
      .error (.exception "invalid slice value to tree") := by decide

/-- Witness for C9: a lookup of "zzz" in an empty mapping fails with the
KeyNotFound assertion naming "zzz". -/
theorem C9_witness :
    alistGet ([] : List (String × NodeId)) "zzz" = none ∧
    getitem_from_list demo0 [] ["zzz"] =
      .error (.assertionError ("zzz" ++ " not found in tree - check keys")) :=
  ⟨by decide, C9_theorem.2.2.2 demo0 [] "zzz" [] (by decide)⟩

/-- C3 (code bug): serializing a Root writes the group-type tag "node",
not "root": `Root.__init__` sets `_emd_group_type = "root"` only on the
instance, while `to_h5` reads `self.__class__._emd_group_type`, which
resolves to the class attribute inherited from `Node`, i.e. "node".  Here
the Root "S" of `demo0` carries the instance tag "root" yet its serialized
group is tagged "node". -/
theorem C3_theorem :
    (demo0.nodeD 3).isRoot = true ∧
    (demo0.nodeD 3).emdInstanceTag = some "root" ∧
    (to_h5 demo0 3).1 = Except.ok
      { name := "S", attrs := [("emd_group_type", "node"), ("python_class", "Root")],
        metadataGroup := none } ∧
    (to_h5 demo0 3).2 = demo0 := by decide

/-- C4 (code bug): grafting a direct child of a Root crashes.  In `demoA`
the Root "R" (id 0) holds the child "a" (id 1, path "/a") and "S" (id 3)
is a separate Root; `a.graft(S, merge_metadata=False)` computes the parent
path "" and `get_from_tree("")` evaluates `name[0]` on the empty string,
raising IndexError before any mutation, so the graft neither moves the
subtree nor changes either tree. -/
theorem C4_theorem :
    (add_to_tree demo0 0 1).1 = Except.ok () ∧
    (demoA.nodeD 1).treepath = some "/a" ∧
    (demoA.nodeD 1).root = some 0 ∧
    (demoA.nodeD 3).root = some 3 ∧
    graft demoA 1 3 MergeArg.mFalse = (Except.error PyErr.indexError, demoA) := by decide

/-- C1 (amended): a successful graft re-roots only the grafted node itself:
its `root` becomes the target tree's root, while the `root` field of every
other node — in particular every strict descendant of the moved subtree —
is left exactly as it was.  Hence a node reachable from a Root after a
subtree graft can retain the old Root as its `root`, refuting the original
invariant (see the counterexample). -/
theorem C1_theorem (s : State) (a b : NodeId) (m : MergeArg) (r : NodeId) (s' : State)
    (h : graft s a b m = (.ok r, s')) :
    (s'.nodeD a).root = (s.nodeD b).root ∧
    ∀ i, i ≠ a → (s'.nodeD i).root = (s.nodeD i).root := by
  rcases graft_run s a b m with ⟨e, sE, he, -⟩ |
    ⟨s3, r0, F1, F2, F3m, F3n, F5s, F4, F7r, F6, F9, F8, hO, hF, hT, hC⟩
  · rw [he] at h
    simp at h
  · have hroots : ∀ i, (s'.nodeD i).root = (s3.nodeD i).root := by
      cases m with
      | mOther =>
        rw [hO rfl] at h
        simp at h
      | mFalse =>
        rw [hF rfl] at h
        injection h with h1 h2
        subst h2
        exact fun i => rfl
      | mTrue =>
        rw [hT rfl] at h
        injection h with h1 h2
        subst h2
        exact fun i => (mergeKeys_preserves _ _ _ _ _ i).1
      | mCopy =>
        rw [hC rfl] at h
        injection h with h1 h2
        subst h2
        exact fun i => (mergeKeys_preserves _ _ _ _ _ i).1
    exact ⟨(hroots a).trans F7r, fun i hi => (hroots i).trans ((F8 i hi).1)⟩

/-- Counterexample for C1: starting from well-formed trees R / a / b / c
and a second Root S, the legal operation sequence ending in
`b.graft(S, merge_metadata=True)` succeeds and leaves node "c" reachable
from the Root S while its `root` still points at the old Root R (id 0),
not at S (id 3). -/
theorem C1_counterexample :
    (add_to_tree demo0 0 1).1 = Except.ok () ∧
    (add_to_tree demoA 1 2).1 = Except.ok () ∧
    (add_to_tree demoB 2 4).1 = Except.ok () ∧
    (graft demoC 2 3 MergeArg.mTrue).1 = Except.ok 3 ∧
    4 ∈ reachableFrom demoG 3 ∧
    (demoG.nodeD 3).root = some 3 ∧
    (demoG.nodeD 4).root = some 0 ∧
    (demoG.nodeD 4).root ≠ some 3 := by decide

/-- Witness for C1: the grafting step of the demo scenario instantiates the
amended claim. -/
theorem C1_witness :
    graft demoC 2 3 MergeArg.mTrue = (Except.ok 3, demoG) ∧
    ((demoG.nodeD 2).root = (demoC.nodeD 3).root ∧
      ∀ i, i ≠ 2 → (demoG.nodeD i).root = (demoC.nodeD i).root) :=
  ⟨by decide, C1_theorem demoC 2 3 MergeArg.mTrue 3 demoG (by decide)⟩

/-- C2 (amended): a successful graft rewrites the `path` of only the moved
node itself — set to the target's path plus "/" plus the node's name —
while the `path` field of every other node, in particular every descendant
of the moved subtree, is left as it was; descendant paths therefore go
stale and no longer match the actual chain of parent Tree memberships
(see the counterexample). -/
theorem C2_theorem (s : State) (a b : NodeId) (m : MergeArg) (r : NodeId) (s' : State)
    (h : graft s a b m = (.ok r, s')) :
    (∃ p, (s.nodeD b).treepath = some p ∧
      (s'.nodeD a).treepath = some (p ++ "/" ++ (s.nodeD a).name)) ∧
    ∀ i, i ≠ a → (s'.nodeD i).treepath = (s.nodeD i).treepath := by
  rcases graft_run s a b m with ⟨e, sE, he, -⟩ |
    ⟨s3, r0, F1, F2, F3m, F3n, F5s, F4, F7r, F6, F9, F8, hO, hF, hT, hC⟩
  · rw [he] at h
    simp at h
  · have hpaths : ∀ i, (s'.nodeD i).treepath = (s3.nodeD i).treepath := by
      cases m with
      | mOther =>
        rw [hO rfl] at h
        simp at h
      | mFalse =>
        rw [hF rfl] at h
        injection h with h1 h2
        subst h2
        exact fun i => rfl
      | mTrue =>
        rw [hT rfl] at h
        injection h with h1 h2
        subst h2
        exact fun i => (mergeKeys_preserves _ _ _ _ _ i).2.1
      | mCopy =>
        rw [hC rfl] at h
        injection h with h1 h2
        subst h2
        exact fun i => (mergeKeys_preserves _ _ _ _ _ i).2.1
    obtain ⟨p, hp, hp3⟩ := F6
    exact ⟨⟨p, hp, (hpaths a).trans hp3⟩, fun i hi => (hpaths i).trans ((F8 i hi).2)⟩

/-- Counterexample for C2: after the graft of the demo scenario node "c"
(id 4) is addressable from Root S at the actual address "/b/c", but its
stored `path` is still "/a/b/c" — the path of a descendant of a moved
subtree is not rewritten and disagrees with the chain of parent Tree
memberships. -/
theorem C2_counterexample :
    (graft demoC 2 3 MergeArg.mTrue).1 = Except.ok 3 ∧
    ("/b/c", 4) ∈ addressedFrom demoG demoG.nodes.length "" 3 ∧
    (demoG.nodeD 4).treepath = some "/a/b/c" ∧
    (demoG.nodeD 4).treepath ≠ some "/b/c" := by decide

/-- Witness for C2: the grafting step of the demo scenario instantiates the
amended claim. -/
theorem C2_witness :
    graft demoC 2 3 MergeArg.mTrue = (Except.ok 3, demoG) ∧
    ((∃ p, (demoC.nodeD 3).treepath = some p ∧
      (demoG.nodeD 2).treepath = some (p ++ "/" ++ (demoC.nodeD 2).name)) ∧
      ∀ i, i ≠ 2 → (demoG.nodeD i).treepath = (demoC.nodeD i).treepath) :=
  ⟨by decide, C2_theorem demoC 2 3 MergeArg.mTrue 3 demoG (by decide)⟩

/-- C5 (amended): a graft called with a merge mode equal (under Python ==)
to none of True, False, "copy" does fail — with the bare AssertionError of
`assert(merge_metadata in [True, False, "copy"])` — but the failure is not
atomic: by the time the assert runs the subtree has already been detached
from its old parent and attached under the target, so after the failed
call the grafted node is a child of the target with the target's root, and
only the metadata merge was skipped (metadata of every node unchanged). -/
theorem C5_theorem (s : State) (a b : NodeId) (s' : State)
    (h : graft s a b MergeArg.mOther = (.error (.assertionError ""), s')) :
    (s'.nodeD a).root = (s.nodeD b).root ∧
    alistGet ((s'.nodeD b).tree) ((s.nodeD a).name) = some a ∧
    ∀ i, (s'.nodeD i).metadata = (s.nodeD i).metadata := by
  rcases graft_run s a b .mOther with ⟨e, sE, he, hne⟩ |
    ⟨s3, r0, F1, F2, F3m, F3n, F5s, F4, F7r, F6, F9, F8, hO, hF, hT, hC⟩
  · rw [he] at h
    injection h with h1 h2
    exact absurd (Except.error.inj h1) hne
  · rw [hO rfl] at h
    injection h with h1 h2
    subst h2
    exact ⟨F7r, F9, F1⟩

/-- Counterexample for C5: calling `b.graft(S, merge_metadata=<invalid>)`
on the demo scenario raises the AssertionError, yet afterwards "b" hangs
under S (and is gone from its old parent "a") — the trees are not in
their pre-call state. -/
theorem C5_counterexample :
    (graft demoC 2 3 MergeArg.mOther).1 = .error (.assertionError "") ∧
    alistGet (((graft demoC 2 3 MergeArg.mOther).2).nodeD 3).tree "b" = some 2 ∧
    alistGet (((graft demoC 2 3 MergeArg.mOther).2).nodeD 1).tree "b" = none ∧
    (((graft demoC 2 3 MergeArg.mOther).2).nodeD 2).root = some 3 ∧
    (graft demoC 2 3 MergeArg.mOther).2 ≠ demoC := by decide

/-- Witness for C5: the demo scenario instantiates the amended claim. -/
theorem C5_witness :
    (((graft demoC 2 3 MergeArg.mOther).2).nodeD 2).root = (demoC.nodeD 3).root ∧
    alistGet ((((graft demoC 2 3 MergeArg.mOther).2).nodeD 3).tree) ((demoC.nodeD 2).name)
      = some 2 ∧
    ∀ i, (((graft demoC 2 3 MergeArg.mOther).2).nodeD i).metadata
      = (demoC.nodeD i).metadata :=
  C5_theorem demoC 2 3 (graft demoC 2 3 MergeArg.mOther).2 (by decide)

/-- C6 (amended): the `.tree(...)` dispatcher enforces "exactly one
operation" only among keyword arguments — two or more kwargs, or a single
unrecognized keyword, fail with the corresponding AssertionError, perform
no operation and leave the heap unchanged — but a positional `arg` of a
recognized type (bool, Node, or str) dispatches immediately and silently
ignores any keyword arguments, so a call requesting an operation both ways
performs the positional one instead of failing (see the counterexample). -/
theorem C6_theorem :
    (∀ (s : State) (i : NodeId) (kws : List (String × PyVal)), 2 ≤ kws.length →
      tree s i PyVal.vNone kws =
        ⟨.error (.assertionError
          ("kwargs accepts at most 1 argument; recieved " ++ toString kws.length)), s, []⟩) ∧
    (∀ (s : State) (i : NodeId) (k : String) (v : PyVal),
      k ∉ (["show", "add", "get", "cut", "graft"] : List String) →
      tree s i PyVal.vNone [(k, v)] =
        ⟨.error (.assertionError ("invalid keyword passed to .tree(), " ++ k)), s, []⟩) ∧
    (∀ (s : State) (i : NodeId) (bv : Bool) (kws : List (String × PyVal)),
      tree s i (PyVal.vBool bv) kws = tree s i (PyVal.vBool bv) []) ∧
    (∀ (s : State) (i : NodeId) (nv : NodeId) (kws : List (String × PyVal)),
      tree s i (PyVal.vNode nv) kws = tree s i (PyVal.vNode nv) []) ∧
    (∀ (s : State) (i : NodeId) (sv : String) (kws : List (String × PyVal)),
      tree s i (PyVal.vStr sv) kws = tree s i (PyVal.vStr sv) []) := by
  refine ⟨?_, ?_, fun s i bv kws => rfl, fun s i nv kws => rfl, fun s i sv kws => rfl⟩
  · intro s i kws hlen
    match kws with
    | [] => simp at hlen
    | [x] => simp at hlen
    | x :: y :: rest => rfl
  · intro s i k v hk
    simp [tree, hk]

/-- Counterexample for C6: the call `tree(show-arg, get=...)` requests two
operations at once; it does not fail with InvalidArgument — it succeeds,
performs the positional `show`, and silently ignores the `get` keyword. -/
theorem C6_counterexample :
    tree demoC 0 (PyVal.vBool true) [("get", PyVal.vStr "zzz")] =
      ⟨Except.ok none, demoC, [OpKind.opShow]⟩ := by decide

/-- Witness for C6: a two-keyword call fails with the cardinality
AssertionError, performs nothing and leaves the heap unchanged. -/
theorem C6_witness :
    2 ≤ ([("a", PyVal.vNone), ("b", PyVal.vNone)] : List (String × PyVal)).length ∧
    tree demoC 0 PyVal.vNone [("a", PyVal.vNone), ("b", PyVal.vNone)] =
      ⟨.error (.assertionError ("kwargs accepts at most 1 argument; recieved " ++
        toString ([("a", PyVal.vNone), ("b", PyVal.vNone)] :
          List (String × PyVal)).length)), demoC, []⟩ :=
  ⟨by decide, C6_theorem.1 demoC 0 [("a", PyVal.vNone), ("b", PyVal.vNone)] (by decide)⟩

/-- C8: metadata-merge semantics of graft, for a well-formed heap (each
bundle of the old root is stored under its own name, names are unique, all
metadata ids are live allocations below the allocation counter).  For every
successful graft of `a` onto `b`: with merge mode True the new root holds,
under each of the old root's bundle names, the very same bundle instance
(same id); with mode "copy" it holds a fresh instance — a different id,
allocated by `copy()` — whose record equals the original's; with mode False
no node's metadata changes at all and no metadata is allocated. -/
theorem C8_theorem (s : State) (a b orId : NodeId)
    (hor : (s.nodeD a).root = some orId)
    (hnames : ∀ kv ∈ (s.nodeD orId).metadata, (s.metaD kv.2).name = kv.1)
    (hnodup : (((s.nodeD orId).metadata).map Prod.fst).Nodup)
    (hw : ∀ q ∈ s.metas, q.1 < s.nextMeta)
    (hmids : ∀ kv ∈ (s.nodeD orId).metadata, kv.2 < s.nextMeta) :
    (∀ r s', graft s a b MergeArg.mTrue = (.ok r, s') →
      ∀ kv ∈ (s.nodeD orId).metadata,
        alistGet ((s'.nodeD r).metadata) kv.1 = some kv.2) ∧
    (∀ r s', graft s a b MergeArg.mCopy = (.ok r, s') →
      ∀ kv ∈ (s.nodeD orId).metadata,
        ∃ cid, alistGet ((s'.nodeD r).metadata) kv.1 = some cid ∧
          cid ≠ kv.2 ∧ s'.metaD cid = s.metaD kv.2) ∧
    (∀ r s', graft s a b MergeArg.mFalse = (.ok r, s') →
      (∀ i, (s'.nodeD i).metadata = (s.nodeD i).metadata) ∧ s'.metas = s.metas) := by
  have horid : ((s.nodeD a).root).getD 0 = orId := by
    rw [hor]
    rfl
  refine ⟨?_, ?_, ?_⟩
  · intro r' s' h
    rcases graft_run s a b .mTrue with ⟨e, sE, he, -⟩ |
      ⟨s3, r0, F1, F2, F3m, F3n, F5s, F4, F7r, F6, F9, F8, hO, hF, hT, hC⟩
    · rw [he] at h
      simp at h
    · rw [hT rfl, horid] at h
      injection h with h1 h2
      injection h1 with hr
      subst hr
      subst h2
      intro kv hkv
      have hkeys : ((s3.nodeD orId).metadata) = ((s.nodeD orId).metadata) := F1 orId
      have hmetaD3 : ∀ j, s3.metaD j = s.metaD j := by
        intro j
        unfold State.metaD
        rw [F3m]
      have hget_s : alistGet ((s.nodeD orId).metadata) kv.1 = some kv.2 :=
        alistGet_of_mem_nodup _ _ _ hkv hnodup
      have hget3 : alistGet ((s3.nodeD orId).metadata) kv.1 = some kv.2 := by
        rw [hkeys]
        exact hget_s
      have hall3 : ∀ k ∈ ((s3.nodeD orId).metadata).map Prod.fst,
          ∃ mid, alistGet ((s3.nodeD orId).metadata) k = some mid ∧
            (s3.metaD mid).name = k := by
        intro k hkmem
        rw [hkeys] at hkmem ⊢
        obtain ⟨kv1, hkv1, hfst⟩ := List.mem_map.1 hkmem
        refine ⟨kv1.2, ?_, ?_⟩
        · rw [← hfst]
          exact alistGet_of_mem_nodup _ _ _ hkv1 hnodup
        · rw [hmetaD3, ← hfst]
          exact hnames kv1 hkv1
      have hnd3 : (((s3.nodeD orId).metadata).map Prod.fst).Nodup := by
        rw [hkeys]
        exact hnodup
      have hmemk : kv.1 ∈ ((s3.nodeD orId).metadata).map Prod.fst := by
        rw [hkeys]
        exact List.mem_map.2 ⟨kv, hkv, rfl⟩
      have hmm := mergeKeys_false_get_mem _ s3 orId r0 hall3 hnd3 kv.1 hmemk
      exact hmm.trans hget3
  · intro r' s' h
    rcases graft_run s a b .mCopy with ⟨e, sE, he, -⟩ |
      ⟨s3, r0, F1, F2, F3m, F3n, F5s, F4, F7r, F6, F9, F8, hO, hF, hT, hC⟩
    · rw [he] at h
      simp at h
    · rw [hC rfl, horid] at h
      injection h with h1 h2
      injection h1 with hr
      subst hr
      subst h2
      intro kv hkv
      have hkeys : ((s3.nodeD orId).metadata) = ((s.nodeD orId).metadata) := F1 orId
      have hmetaD3 : ∀ j, s3.metaD j = s.metaD j := by
        intro j
        unfold State.metaD
        rw [F3m]
      have hget_s : alistGet ((s.nodeD orId).metadata) kv.1 = some kv.2 :=
        alistGet_of_mem_nodup _ _ _ hkv hnodup
      have hget3 : alistGet ((s3.nodeD orId).metadata) kv.1 = some kv.2 := by
        rw [hkeys]
        exact hget_s
      have hall3 : ∀ k ∈ ((s3.nodeD orId).metadata).map Prod.fst,
          ∃ mid, alistGet ((s3.nodeD orId).metadata) k = some mid ∧
            (s3.metaD mid).name = k ∧ mid < s3.nextMeta := by
        intro k hkmem
        rw [hkeys] at hkmem ⊢
        obtain ⟨kv1, hkv1, hfst⟩ := List.mem_map.1 hkmem
        refine ⟨kv1.2, ?_, ?_, ?_⟩
        · rw [← hfst]
          exact alistGet_of_mem_nodup _ _ _ hkv1 hnodup
        · rw [hmetaD3, ← hfst]
          exact hnames kv1 hkv1
        · rw [F3n]
          exact hmids kv1 hkv1
      have hnd3 : (((s3.nodeD orId).metadata).map Prod.fst).Nodup := by
        rw [hkeys]
        exact hnodup
      have hw3 : ∀ q ∈ s3.metas, q.1 < s3.nextMeta := by
        rw [F3m, F3n]
        exact hw
      have hmemk : kv.1 ∈ ((s3.nodeD orId).metadata).map Prod.fst := by
        rw [hkeys]
        exact List.mem_map.2 ⟨kv, hkv, rfl⟩
      obtain ⟨mid, cid, e1, e2, e3, e4⟩ :=
        mergeKeys_copy_get_mem _ s3 orId r0 hall3 hw3 hnd3 kv.1 hmemk
      have hmid : mid = kv.2 := by
        rw [hget3] at e1
        exact (Option.some.inj e1).symm
      subst hmid
      refine ⟨cid, e2, ?_, ?_⟩
      · have hb : kv.2 < s3.nextMeta := by
          rw [F3n]
          exact hmids kv hkv
        exact Ne.symm (Nat.ne_of_lt (lt_of_lt_of_le hb e3))
      · rw [e4, hmetaD3]
  · intro r' s' h
    rcases graft_run s a b .mFalse with ⟨e, sE, he, -⟩ |
      ⟨s3, r0, F1, F2, F3m, F3n, F5s, F4, F7r, F6, F9, F8, hO, hF, hT, hC⟩
    · rw [he] at h
      simp at h
    · rw [hF rfl] at h
      injection h with h1 h2
      subst h2
      exact ⟨F1, F3m⟩

/-- Witness for C8: in the demo scenario the old root R (id 0) carries two
bundles; the graft of `b` onto `S` with merge mode True succeeds and the
hypotheses of the theorem hold concretely. -/
theorem C8_witness :
    (demoC.nodeD 2).root = some 0 ∧
    (graft demoC 2 3 MergeArg.mTrue).1 = Except.ok 3 ∧
    (∀ r s', graft demoC 2 3 MergeArg.mTrue = (.ok r, s') →
      ∀ kv ∈ (demoC.nodeD 0).metadata,
        alistGet ((s'.nodeD r).metadata) kv.1 = some kv.2) :=
  ⟨by decide, by decide,
    (C8_theorem demoC 2 3 0 (by decide) (by decide) (by decide) (by decide) (by decide)).1⟩
